import Mathlib

/-!
Verification of the gokeyless request/response multiplexing engine:
a shallow embedding of the server-side per-connection reader/writer
(`server/conn.go`) and the client-side connection cache and SKI router
(`client.go`), with theorems settling the specified properties.

External collaborators (the transport socket, TLS dialing, the random
number source, clocks) are modelled as explicit oracle parameters; Go
slices are modelled with their backing arrays so that aliasing between
the registry map and local working copies is faithful.
-/

namespace Gokeyless

/-! ## Protocol data model

`protocol.Packet` = header (versions, length, correlation id) plus an
opcode-tagged operation payload. `Operation.Bytes()` is the codec's
serialized length of the operation (opcode byte + payload). -/

structure Operation where
  opcode : Nat
  payload : List Nat
deriving Repr, DecidableEq

def Operation.bytes (op : Operation) : Nat :=
  1 + op.payload.length

structure Header where
  majorVers : Nat
  minorVers : Nat
  length : Nat
  id : Nat
deriving Repr, DecidableEq

structure Packet where
  header : Header
  operation : Operation
deriving Repr, DecidableEq

/-- Wire serialization of a packet, `pkt.MarshalBinary()`. The codec is an
external collaborator documented never to fail; modelled as a total
function: version bytes, 2-byte length, 4-byte id, opcode, payload. -/
def marshalPacket (p : Packet) : List Nat :=
  [p.header.majorVers, p.header.minorVers,
   p.header.length / 256, p.header.length % 256,
   p.header.id / 16777216, p.header.id / 65536 % 256,
   p.header.id / 256 % 256, p.header.id % 256,
   p.operation.opcode] ++ p.operation.payload

/-! ## Errors and logging

`LogConnErr` distinguishes three shapes: `nil` (planned closure),
`io.EOF` (peer closed), anything else (genuine failure, also counted in
the global failure metric). `net.Error.Timeout()` is only consulted in
`GetJob`'s read path. -/

inductive GoError
  | eof
  | timeout
  | other
deriving Repr, DecidableEq

inductive LogLevel
  | debug
  | error
deriving Repr, DecidableEq

structure LogEvent where
  level : LogLevel
  msg : String
deriving Repr, DecidableEq

structure ConnEvent where
  time : Nat
  id : Nat
  opcode : Nat
deriving Repr, DecidableEq

structure ConnStats where
  reads : Nat
  writes : Nat
  lastRead : ConnEvent
  lastWrite : ConnEvent
deriving Repr, DecidableEq

/-- Server-side connection state: the two atomic flags, the transport's
closed bit, the stats record, the emitted log and the failure metric. -/
structure ConnState where
  serverClosing : Bool
  closed : Bool
  transportClosed : Bool
  stats : ConnStats
  log : List LogEvent
  connFailures : Nat
deriving Repr, DecidableEq

def initStats : ConnStats :=
  { reads := 0, writes := 0,
    lastRead := ⟨0, 0, 0⟩, lastWrite := ⟨0, 0, 0⟩ }

def initConn : ConnState :=
  { serverClosing := false, closed := false, transportClosed := false,
    stats := initStats, log := [], connFailures := 0 }

/-- `IsAlive()`: lock-free check of the closed flag. -/
def IsAlive (c : ConnState) : Bool :=
  !c.closed

/-- `LogConnErr(err)`: suppress a non-nil error while the server is
closing; otherwise log planned closure and EOF at debug level, anything
else at error level while bumping the failure metric. -/
def LogConnErr (c : ConnState) (err : Option GoError) : ConnState :=
  if err.isSome && c.serverClosing then c
  else
    match err with
    | none =>
        { c with log := c.log ++ [⟨.debug, "server closing connection"⟩] }
    | some .eof =>
        { c with log := c.log ++ [⟨.debug, "closed by client"⟩] }
    | some _ =>
        { c with
          connFailures := c.connFailures + 1,
          log := c.log ++ [⟨.error, "encountered error"⟩] }

/-- `Destroy()`: CAS the `serverClosing` flag 0→1; the winner logs the
planned closure, closes the transport and sets the closed flag; a loser
returns at once. -/
def Destroy (c : ConnState) : ConnState :=
  if c.serverClosing then c
  else
    let c₁ := LogConnErr { c with serverClosing := true } none
    { c₁ with transportClosed := true, closed := true }

/-! ## GetJob and SubmitResult

The transport socket is an external collaborator: outcomes of
`SetReadDeadline`, the blocking packet read and `Write` enter as oracle
parameters (`deadlineErr`, `readResult`, `writeErr`), with the transport
contract (a closed socket fails I/O) stated as a hypothesis where a
claim needs it. -/

/-- A received `request`: the packet plus receipt metadata. -/
structure Request where
  pkt : Packet
  reqBegin : Nat
  connName : String
deriving Repr, DecidableEq

/-- Outcome of `GetJob`: the job (when ok), the selected pool id, the
ok flag and the updated connection state. -/
structure GetJobResult where
  job : Option Request
  pool : Option Nat
  ok : Bool
  conn : ConnState
deriving Repr, DecidableEq

/-- `GetJob()`: set the idle-timeout read deadline, block reading one
packet. Deadline-setting failure and non-timeout read errors are fatal
(logged, transport force-closed, closed flag set); a read timeout is a
planned idle shutdown via `Destroy`; a received packet updates read
stats under the stats lock and is dispatched through the selector. -/
def GetJob (c : ConnState) (selector : Packet → Nat) (name : String)
    (deadlineErr : Option GoError) (readResult : Except GoError Packet)
    (now : Nat) : GetJobResult :=
  match deadlineErr with
  | some e =>
      let c₁ := LogConnErr c (some e)
      ⟨none, none, false, { c₁ with transportClosed := true, closed := true }⟩
  | none =>
      match readResult with
      | .error e =>
          if e = .timeout then
            ⟨none, none, false, Destroy c⟩
          else
            let c₁ := LogConnErr c (some e)
            ⟨none, none, false,
              { c₁ with transportClosed := true, closed := true }⟩
      | .ok pkt =>
          let req : Request := ⟨pkt, now, name⟩
          let st := c.stats
          let st' := { st with
            reads := st.reads + 1,
            lastRead := ⟨now, pkt.header.id, pkt.operation.opcode⟩ }
          ⟨some req, some (selector pkt), true, { c with stats := st' }⟩

/-- A worker's `response`: response operation, correlation id, plus the
originating request's opcode, receipt time and outcome. -/
structure Response where
  op : Operation
  id : Nat
  reqOpcode : Nat
  reqBegin : Nat
  err : Option GoError
deriving Repr, DecidableEq

/-- Modelled from the spec: the worker that builds a `response` from a
request is outside this repository slice; per the spec it echoes the
request's correlation id and carries the originating opcode on the
response operation (the execution outcome fills the payload). -/
def mkResponse (req : Request) (payload : List Nat) (err : Option GoError) :
    Response :=
  { op := ⟨req.pkt.operation.opcode, payload⟩,
    id := req.pkt.header.id,
    reqOpcode := req.pkt.operation.opcode,
    reqBegin := req.reqBegin,
    err := err }

/-- The packet `SubmitResult` frames from a `response`: fixed version
1.0, length and operation from the response operation, the response's
correlation id. -/
def framePacket (resp : Response) : Packet :=
  { header := { majorVers := 1, minorVers := 0,
                length := resp.op.bytes, id := resp.id },
    operation := resp.op }

/-- Outcome of `SubmitResult`: success flag, updated state, the framed
packet and the bytes handed to the transport write. -/
structure SubmitResultOut where
  ok : Bool
  conn : ConnState
  pkt : Packet
  wrote : List Nat
deriving Repr, DecidableEq

/-- `SubmitResult(result)`: frame the response into a packet, serialize
it (the codec never fails) and write it; a write failure is logged and
fatally closes the connection; success updates write stats under the
stats lock. -/
def SubmitResult (c : ConnState) (resp : Response)
    (writeErr : Option GoError) (now : Nat) : SubmitResultOut :=
  let pkt := framePacket resp
  let buf := marshalPacket pkt
  match writeErr with
  | some e =>
      let c₁ := LogConnErr c (some e)
      ⟨false, { c₁ with transportClosed := true, closed := true }, pkt, buf⟩
  | none =>
      let st := c.stats
      let st' := { st with
        writes := st.writes + 1,
        lastWrite := ⟨now, pkt.header.id, resp.reqOpcode⟩ }
      ⟨true, { c with stats := st' }, pkt, buf⟩

/-! ## Concurrent Destroy

`Destroy` decomposes into four atomic actions: the CAS on
`serverClosing`, the "server closing" debug log, `conn.Close()`, and the
store to `closed`. N threads each run this program; a schedule is the
sequence of thread ids taking steps. The CAS is the only shared-read
point, so this models every interleaving the Go memory model allows for
the atomics involved. -/

/-- Program counter of one thread running `Destroy`: at the CAS, the
winner's three remaining actions, or finished (as winner or loser). -/
inductive DThread
  | atCAS
  | willLog
  | willClose
  | willStore
  | wonDone
  | lostDone
deriving Repr, DecidableEq

/-- Shared state plus per-thread program counters for a run of N
concurrent `Destroy` calls. `closingLogs` counts emitted "server
closing" debug events. -/
structure DestroyRun where
  threads : List DThread
  serverClosing : Bool
  transportClosed : Bool
  closed : Bool
  closingLogs : Nat
deriving Repr, DecidableEq

def destroyInit (n : Nat) : DestroyRun :=
  { threads := List.replicate n .atCAS,
    serverClosing := false, transportClosed := false, closed := false,
    closingLogs := 0 }

/-- One atomic step by thread `i` (out-of-range ids and finished threads
leave the state unchanged). -/
def destroyStep (r : DestroyRun) (i : Nat) : DestroyRun :=
  match r.threads.get? i with
  | none => r
  | some t =>
      match t with
      | .atCAS =>
          if r.serverClosing then
            { r with threads := r.threads.set i .lostDone }
          else
            { r with threads := r.threads.set i .willLog,
                     serverClosing := true }
      | .willLog =>
          { r with threads := r.threads.set i .willClose,
                   closingLogs := r.closingLogs + 1 }
      | .willClose =>
          { r with threads := r.threads.set i .willStore,
                   transportClosed := true }
      | .willStore =>
          { r with threads := r.threads.set i .wonDone,
                   closed := true }
      | .wonDone => r
      | .lostDone => r

def destroyRunSched (n : Nat) (sched : List Nat) : DestroyRun :=
  sched.foldl destroyStep (destroyInit n)

/-- A run is complete when every thread has returned from `Destroy`. -/
def destroyComplete (r : DestroyRun) : Prop :=
  ∀ t ∈ r.threads, t = DThread.wonDone ∨ t = DThread.lostDone

instance (r : DestroyRun) : Decidable (destroyComplete r) :=
  inferInstanceAs (Decidable (∀ t ∈ r.threads, _ ∨ _))

/-- A thread that won the CAS (it is executing, or has executed, the
shutdown body). -/
def isWinner : DThread → Bool
  | .willLog | .willClose | .willStore | .wonDone => true
  | _ => false

/-- A winner that has already emitted the "server closing" log line. -/
def pastLog : DThread → Bool
  | .willClose | .willStore | .wonDone => true
  | _ => false

/-- A winner that has already closed the transport. -/
def pastClose : DThread → Bool
  | .willStore | .wonDone => true
  | _ => false

/-- A winner that has finished (has stored the closed flag). -/
def isWon : DThread → Bool
  | .wonDone => true
  | _ => false

/-- A thread that lost the CAS. -/
def isLost : DThread → Bool
  | .lostDone => true
  | _ => false

/-- The inductive invariant of a concurrent `Destroy` run: at most one
thread ever wins the CAS, `serverClosing` records that a winner exists,
the log/transport/closed effects mirror exactly how far the unique
winner has progressed, and a loser can only exist once a winner does. -/
def DestroyInv (r : DestroyRun) : Prop :=
  r.threads.countP isWinner ≤ 1 ∧
  (r.serverClosing = true ↔ r.threads.countP isWinner = 1) ∧
  r.closingLogs = r.threads.countP pastLog ∧
  (r.transportClosed = true ↔ r.threads.countP pastClose = 1) ∧
  (r.closed = true ↔ r.threads.countP isWon = 1) ∧
  (0 < r.threads.countP isLost → r.threads.countP isWinner = 1)

/-! ## Client: connection cache and SKI router

Go maps are association lists with at-most-one entry per key; a Go slice
is its backing array together with its length, so that the in-place
`append(servers[:n], servers[n+1:]...)` removal in `DialAny` mutates the
array shared with the registry entry, exactly as in Go. TLS dialing and
the random source are oracles (`dialOk`, `rng`). -/

def alookup {α β : Type} [DecidableEq α] (k : α) : List (α × β) → Option β
  | [] => none
  | (a, b) :: rest => if a = k then some b else alookup k rest

def aset {α β : Type} [DecidableEq α] (k : α) (v : β) :
    List (α × β) → List (α × β)
  | [] => [(k, v)]
  | (a, b) :: rest =>
      if a = k then (k, v) :: rest else (a, b) :: aset k v rest

def aerase {α β : Type} [DecidableEq α] (k : α) :
    List (α × β) → List (α × β)
  | [] => []
  | (a, b) :: rest => if a = k then rest else (a, b) :: aerase k rest

/-- A `gokeyless.Conn` handle: an identity (so reuse is observable) and
its `IsOpen` flag. -/
structure GConn where
  connId : Nat
  isOpen : Bool
deriving Repr, DecidableEq

instance : Inhabited GConn := ⟨⟨0, false⟩⟩

/-- A Go slice of strings: backing array contents plus the slice
length (`len ≤ backing.length`; capacity beyond the backing is never
observable in this code and is omitted). -/
structure GoSlice where
  backing : List String
  len : Nat
deriving Repr, DecidableEq

/-- The elements visible through a slice header. -/
def GoSlice.view (s : GoSlice) : List String :=
  s.backing.take s.len

/-- `Client` state: whether `Config` is non-nil, the `conns` cache, the
`allServers` registry, and a counter minting fresh connection ids. -/
structure ClientState where
  configOk : Bool
  conns : List (String × GConn)
  allServers : List (Nat × GoSlice)
  nextConnId : Nat
deriving Repr, DecidableEq

inductive DialErr
  | configErr
  | dialFailed
  | noServers
  | noReachable
deriving Repr, DecidableEq

/-- Reading `c.allServers[ski]`: a missing key yields the nil slice. -/
def lookupSlice (m : List (Nat × GoSlice)) (ski : Nat) : GoSlice :=
  (alookup ski m).getD ⟨[], 0⟩

/-- The tail of `Dial` past the cache check: `tls.Dial` then cache the
fresh connection under the address. -/
def dialFresh (st : ClientState) (dialOk : String → Bool) (server : String) :
    Except DialErr GConn × ClientState :=
  if dialOk server then
    let conn : GConn := ⟨st.nextConnId, true⟩
    (.ok conn,
      { st with conns := aset server conn st.conns,
                nextConnId := st.nextConnId + 1 })
  else (.error .dialFailed, st)

/-- `Dial(server)`: reject when `Config` is nil; return a cached open
connection; drop a stale cached entry; otherwise dial and cache. -/
def Dial (st : ClientState) (dialOk : String → Bool) (server : String) :
    Except DialErr GConn × ClientState :=
  if !st.configOk then (.error .configErr, st)
  else
    match alookup server st.conns with
    | some conn =>
        if conn.isOpen then (.ok conn, st)
        else dialFresh { st with conns := aerase server st.conns } dialOk server
    | none => dialFresh st dialOk server

/-- The backing array after the in-place removal
`append(servers[:n], servers[n+1:]...)` of index `n` from a slice of
length `L`: elements shift left inside the first `L` cells, the rest of
the array is untouched. -/
def sliceRemove (b : List String) (L n : Nat) : List String :=
  (b.take L).eraseIdx n ++ b.drop (L - 1)

/-- The retry loop of `DialAny`: pick a uniformly random index of the
working slice, `Dial` it, return on success, else remove it in place
and retry; returns the outcome together with the final backing array. -/
def dialLoop (dialOk : String → Bool) :
    Nat → ClientState → List String → List Nat →
    (Except DialErr GConn × ClientState) × List String
  | 0, st, b, _ => ((.error .noReachable, st), b)
  | L + 1, st, b, rng =>
      let n := rng.headD 0 % (L + 1)
      let addr := (b.take (L + 1)).getD n ""
      match Dial st dialOk addr with
      | (.ok conn, st') => ((.ok conn, st'), b)
      | (.error _, st') =>
          dialLoop dialOk L st' (sliceRemove b (L + 1) n) rng.tail

/-- `DialAny(ski)`: fail on an empty candidate list; otherwise prefer a
uniformly random cached connection among the candidates; otherwise run
the dial loop on the (aliased) working slice. The registry entry keeps
its slice header while its backing reflects the loop's mutations. -/
def DialAny (st : ClientState) (dialOk : String → Bool) (rng : List Nat)
    (ski : Nat) : Except DialErr GConn × ClientState :=
  let sl := lookupSlice st.allServers ski
  if sl.len = 0 then (.error .noServers, st)
  else
    let existing := sl.view.filterMap (fun srv => alookup srv st.conns)
    if existing.length > 0 then
      (.ok (existing.getD (rng.headD 0 % existing.length) default), st)
    else
      let out := dialLoop dialOk sl.len st sl.backing rng
      (out.1.1,
        { out.1.2 with
          allServers := aset ski ⟨out.2, sl.len⟩ out.1.2.allServers })

/-- The `existing` list `DialAny` builds: the cache entries found for
the fingerprint's candidates, in candidate order (note: presence in the
cache is all that is checked, not openness). -/
def cachedCandidates (st : ClientState) (ski : Nat) : List GConn :=
  (lookupSlice st.allServers ski).view.filterMap
    (fun srv => alookup srv st.conns)

/-- `registerSKI(server, ski)`: append the server to the fingerprint's
candidate list (Go `append` on the map entry, reassigned). -/
def registerSKI (st : ClientState) (server : String) (ski : Nat) :
    ClientState :=
  let sl := lookupSlice st.allServers ski
  { st with allServers := aset ski ⟨sl.view ++ [server], sl.len + 1⟩ st.allServers }

/-- The opaque handle `RegisterPublicKey` returns. -/
structure PrivateKey where
  public : Nat
  ski : Nat
  digest : Nat
deriving Repr, DecidableEq

/-- `RegisterPublicKey(server, pub)`: compute the SKI (propagating its
error), register the server under it, and build the handle with
whatever digest value `GetDigest` produced, its error discarded.
`GetSKI`/`GetDigest` live outside this repository slice and enter as
oracles. -/
def RegisterPublicKey (st : ClientState) (getSKI : Nat → Except String Nat)
    (getDigest : Nat → Nat × Option String) (server : String) (pub : Nat) :
    Except String PrivateKey × ClientState :=
  match getSKI pub with
  | .error e => (.error e, st)
  | .ok ski =>
      let st' := registerSKI st server ski
      (.ok ⟨pub, ski, (getDigest pub).1⟩, st')

/-! ## Concrete states used by counterexamples and witnesses -/

/-- One registered fingerprint `1 ↦ ["a","b"]`, empty connection
cache. -/
def stTwoServers : ClientState :=
  { configOk := true, conns := [],
    allServers := [(1, ⟨["a", "b"], 2⟩)], nextConnId := 0 }

/-- Fingerprint `1 ↦ ["a","b"]` where the cache holds a closed
connection for `a` and an open one for `b`. -/
def stMixedCache : ClientState :=
  { configOk := true,
    conns := [("a", ⟨5, false⟩), ("b", ⟨6, true⟩)],
    allServers := [(1, ⟨["a", "b"], 2⟩)], nextConnId := 7 }

/-! # Theorems -/

theorem alookup_aset_self {α β : Type} [DecidableEq α] (k : α) (v : β)
    (l : List (α × β)) : alookup k (aset k v l) = some v := by
  induction l with
  | nil => simp [aset, alookup]
  | cons hd tl ih =>
      obtain ⟨a, b⟩ := hd
      by_cases h : a = k <;> simp [aset, alookup, h, ih]

theorem alookup_aset_ne {α β : Type} [DecidableEq α] {k k' : α} (v : β)
    (l : List (α × β)) (h : k' ≠ k) :
    alookup k' (aset k v l) = alookup k' l := by
  induction l with
  | nil => simp [aset, alookup, Ne.symm h]
  | cons hd tl ih =>
      obtain ⟨a, b⟩ := hd
      by_cases ha : a = k
      · subst ha
        simp [aset, alookup, h, Ne.symm h]
      · by_cases ha' : a = k'
        · subst ha'
          simp [aset, alookup, ha, h]
        · simp [aset, alookup, ha, ha', ih]

/-- **C9.** `Dial` contract: (1) a nil `Config` fails immediately with
the configuration error; (2) a cached open connection is returned as is
with no state change; (3) a cached stale connection is discarded and a
fresh dial is cached under the address; (4) hence a repeated `Dial` of
an address right after a successful one returns the very same cached
connection with no further state change. -/
theorem dial_cache_contract (st : ClientState) (dialOk : String → Bool)
    (srv : String) :
    (st.configOk = false → Dial st dialOk srv = (.error .configErr, st)) ∧
    (∀ conn : GConn, st.configOk = true →
      alookup srv st.conns = some conn → conn.isOpen = true →
      Dial st dialOk srv = (.ok conn, st)) ∧
    (∀ conn : GConn, st.configOk = true →
      alookup srv st.conns = some conn → conn.isOpen = false →
      dialOk srv = true →
      Dial st dialOk srv =
        (.ok ⟨st.nextConnId, true⟩,
         { st with
           conns := aset srv ⟨st.nextConnId, true⟩ (aerase srv st.conns),
           nextConnId := st.nextConnId + 1 })) ∧
    (∀ (conn : GConn) (st' : ClientState),
      Dial st dialOk srv = (.ok conn, st') →
      Dial st' dialOk srv = (.ok conn, st')) := by
  refine ⟨?_, ?_, ?_, ?_⟩
  · intro h; simp [Dial, h]
  · intro conn hcfg hlk hopen; simp [Dial, hcfg, hlk, hopen]
  · intro conn hcfg hlk hopen hdial
    simp [Dial, hcfg, hlk, hopen, dialFresh, hdial]
  · intro conn st' h
    by_cases hcfg : st.configOk
    · rcases hlk : alookup srv st.conns with _ | c
      · simp only [Dial, hcfg, Bool.not_true, Bool.false_eq_true,
          if_false, hlk] at h
        by_cases hd : dialOk srv
        · simp [dialFresh, hd] at h
          obtain ⟨hc, hst⟩ := h
          subst hst
          simp [Dial, hcfg, ← hc, alookup_aset_self]
        · simp [dialFresh, hd] at h
      · simp only [Dial, hcfg, Bool.not_true, Bool.false_eq_true,
          if_false, hlk] at h
        by_cases hopen : c.isOpen
        · simp [hopen] at h
          obtain ⟨hc, hst⟩ := h
          subst hst
          simp [Dial, hcfg, hlk, ← hc, hopen]
        · simp only [hopen, Bool.false_eq_true, if_false] at h
          by_cases hd : dialOk srv
          · simp [dialFresh, hd] at h
            obtain ⟨hc, hst⟩ := h
            subst hst
            simp [Dial, hcfg, ← hc, alookup_aset_self]
          · simp [dialFresh, hd] at h
    · simp [Dial, hcfg] at h

/-- Witness for C9: on `stMixedCache`, dialing `b` returns the cached
open connection 6 unchanged, and dialing it again returns the same. -/
theorem dial_cache_contract_witness :
    Dial stMixedCache (fun _ => true) "b" = (.ok ⟨6, true⟩, stMixedCache) :=
  (dial_cache_contract stMixedCache (fun _ => true) "b").2.1
    ⟨6, true⟩ rfl rfl rfl

/-- **C10.** `RegisterPublicKey` fails exactly when the SKI computation
fails (propagating that error, registering nothing); when the SKI is
computed it registers the server under the fingerprint and returns a
handle carrying whatever digest value `GetDigest` produced, its error
discarded — under the Go zero-value convention for the digest oracle, a
failing `GetDigest` leaves a zero digest in the handle. -/
theorem registerPublicKey_discards_digest_error (st : ClientState)
    (getSKI : Nat → Except String Nat)
    (getDigest : Nat → Nat × Option String) (srv : String) (pub : Nat) :
    (∀ e, getSKI pub = .error e →
      RegisterPublicKey st getSKI getDigest srv pub = (.error e, st)) ∧
    (∀ ski, getSKI pub = .ok ski →
      RegisterPublicKey st getSKI getDigest srv pub =
        (.ok ⟨pub, ski, (getDigest pub).1⟩, registerSKI st srv ski) ∧
      (lookupSlice (registerSKI st srv ski).allServers ski).view =
        (lookupSlice st.allServers ski).view ++ [srv]) ∧
    (∀ ski, getSKI pub = .ok ski →
      ((getDigest pub).2.isSome = true → (getDigest pub).1 = 0) →
      (getDigest pub).2.isSome = true →
      (RegisterPublicKey st getSKI getDigest srv pub).1 = .ok ⟨pub, ski, 0⟩) := by
  refine ⟨?_, ?_, ?_⟩
  · intro e h; simp [RegisterPublicKey, h]
  · intro ski h
    refine ⟨by simp [RegisterPublicKey, h], ?_⟩
    simp [registerSKI, lookupSlice, alookup_aset_self, GoSlice.view]
  · intro ski h hconv hfail
    have := hconv hfail
    simp [RegisterPublicKey, h, this]

/-- Witness for C10: with an SKI oracle returning fingerprint 1 and a
digest oracle failing with digest 0, registration still succeeds and
returns the zero-digest handle. -/
theorem registerPublicKey_discards_digest_error_witness :
    (RegisterPublicKey stTwoServers (fun _ => .ok 1)
        (fun _ => (0, some "digest failure")) "c" 42).1 = .ok ⟨42, 1, 0⟩ :=
  (registerPublicKey_discards_digest_error stTwoServers (fun _ => .ok 1)
      (fun _ => (0, some "digest failure")) "c" 42).2.2 1 rfl (fun _ => rfl) rfl

/-- **C8.** Once a connection is shut down (closed flag set, transport
closed), any `SubmitResult` returns failure: the transport contract
makes the write fail, which `SubmitResult` turns into `false`, leaving
the connection not alive. -/
theorem submitResult_after_shutdown (c : ConnState) (resp : Response)
    (writeErr : Option GoError) (now : Nat)
    (hclosed : c.closed = true) (htrans : c.transportClosed = true)
    (hTransport : c.transportClosed = true → writeErr.isSome = true) :
    (SubmitResult c resp writeErr now).ok = false ∧
    IsAlive (SubmitResult c resp writeErr now).conn = false := by
  have hw := hTransport htrans
  cases writeErr with
  | none => simp at hw
  | some e => simp [SubmitResult, IsAlive]

/-- Witness for C8 at a concrete destroyed connection. -/
theorem submitResult_after_shutdown_witness :
    (SubmitResult (Destroy initConn) ⟨⟨2, [9]⟩, 7, 2, 0, none⟩
        (some .other) 5).ok = false ∧
    IsAlive (SubmitResult (Destroy initConn) ⟨⟨2, [9]⟩, 7, 2, 0, none⟩
        (some .other) 5).conn = false :=
  submitResult_after_shutdown (Destroy initConn) ⟨⟨2, [9]⟩, 7, 2, 0, none⟩
    (some .other) 5 rfl rfl (fun _ => rfl)

/-- **C2.** The packet `SubmitResult` frames from a worker response to
request `req` carries `req`'s correlation id, its operation carries the
originating opcode, and the bytes handed to the socket are exactly the
serialization of that packet — on the success and the failure path of
the write alike. -/
theorem submitResult_echoes_correlation (c : ConnState) (req : Request)
    (payload : List Nat) (err : Option GoError) (writeErr : Option GoError)
    (now : Nat) :
    (SubmitResult c (mkResponse req payload err) writeErr now).pkt.header.id
        = req.pkt.header.id ∧
    (SubmitResult c (mkResponse req payload err) writeErr now).pkt.operation.opcode
        = req.pkt.operation.opcode ∧
    (SubmitResult c (mkResponse req payload err) writeErr now).wrote
        = marshalPacket (framePacket (mkResponse req payload err)) := by
  cases writeErr <;> simp [SubmitResult, mkResponse, framePacket]

/-- **C7, counterexample.** A write failure on a connection the server
is already closing is *not* logged: `LogConnErr` suppresses non-nil
errors once `serverClosing` is set, so the log is left exactly as it
was — against the claim that a failing write always logs the error. -/
theorem submitResult_suppressed_log_cex :
    (Destroy initConn).serverClosing = true ∧
    (SubmitResult (Destroy initConn) ⟨⟨3, [4]⟩, 8, 3, 1, none⟩
        (some .other) 6).ok = false ∧
    (SubmitResult (Destroy initConn) ⟨⟨3, [4]⟩, 8, 3, 1, none⟩
        (some .other) 6).conn.log = (Destroy initConn).log :=
  ⟨rfl, rfl, rfl⟩

/-- **C7, amended.** A failing write force-closes the connection
(closed flag, transport) and returns false; the error is logged exactly
when the server is not already closing the connection (it is suppressed
otherwise). A successful write bumps the write counter, records the
last-write event `{time, correlation id, originating opcode}` under the
stats lock, logs nothing, and returns true. -/
theorem submitResult_write_outcome (c : ConnState) (resp : Response)
    (e : GoError) (now : Nat) :
    ((SubmitResult c resp (some e) now).ok = false ∧
     (SubmitResult c resp (some e) now).conn.closed = true ∧
     (SubmitResult c resp (some e) now).conn.transportClosed = true ∧
     IsAlive (SubmitResult c resp (some e) now).conn = false ∧
     (c.serverClosing = true →
       (SubmitResult c resp (some e) now).conn.log = c.log) ∧
     (c.serverClosing = false →
       ∃ ev, (SubmitResult c resp (some e) now).conn.log = c.log ++ [ev])) ∧
    ((SubmitResult c resp none now).ok = true ∧
     (SubmitResult c resp none now).conn.stats.writes = c.stats.writes + 1 ∧
     (SubmitResult c resp none now).conn.stats.lastWrite
        = ⟨now, resp.id, resp.reqOpcode⟩ ∧
     (SubmitResult c resp none now).conn.log = c.log) := by
  refine ⟨⟨?_, ?_, ?_, ?_, ?_, ?_⟩, ?_, ?_, ?_, ?_⟩
  · simp [SubmitResult]
  · simp [SubmitResult]
  · simp [SubmitResult]
  · simp [SubmitResult, IsAlive]
  · intro h; cases e <;> simp [SubmitResult, LogConnErr, h]
  · intro h; cases e <;> simp [SubmitResult, LogConnErr, h]
  · simp [SubmitResult]
  · simp [SubmitResult]
  · simp [SubmitResult, framePacket]
  · simp [SubmitResult]

/-- Witness for C7 (amended): on a fresh connection a failing write
returns false and appends one log event. -/
theorem submitResult_write_outcome_witness :
    (SubmitResult initConn ⟨⟨3, [4]⟩, 8, 3, 1, none⟩ (some .other) 6).ok
        = false ∧
    ∃ ev, (SubmitResult initConn ⟨⟨3, [4]⟩, 8, 3, 1, none⟩
        (some .other) 6).conn.log = initConn.log ++ [ev] :=
  ⟨(submitResult_write_outcome initConn ⟨⟨3, [4]⟩, 8, 3, 1, none⟩
      .other 6).1.1,
   (submitResult_write_outcome initConn ⟨⟨3, [4]⟩, 8, 3, 1, none⟩
      .other 6).1.2.2.2.2.2 rfl⟩

/-- **C6, counterexample.** A clean EOF on the read path is a read
error that is logged at *debug* level ("closed by client"), not at
error level — against the claim that every non-timeout read error logs
at error level. -/
theorem getJob_eof_debug_cex :
    (GetJob initConn (fun _ => 0) "c" none (.error .eof) 10).ok = false ∧
    (GetJob initConn (fun _ => 0) "c" none (.error .eof) 10).conn.log
        = [⟨.debug, "closed by client"⟩] ∧
    ∀ ev ∈ (GetJob initConn (fun _ => 0) "c" none (.error .eof) 10).conn.log,
      ev.level ≠ .error := by
  refine ⟨rfl, rfl, ?_⟩
  intro ev hev
  simp [GetJob, LogConnErr, initConn] at hev
  simp [hev]

/-- **C6, amended.** With the idle deadline set, a read timeout is a
planned shutdown: `GetJob` hands the connection to `Destroy` (so the
closed flag is set, the connection is no longer alive, and exactly one
debug event is appended — no error-level log, no failure count). Every
other read error returns ok=false and force-closes the connection; it
is logged at error level with the failure metric bumped only when it is
neither EOF (debug, "closed by client") nor arriving while the server
is closing the connection (suppressed entirely). -/
theorem getJob_error_paths (c : ConnState) (sel : Packet → Nat)
    (name : String) (now : Nat) :
    (c.serverClosing = false →
      GetJob c sel name none (.error .timeout) now
        = ⟨none, none, false, Destroy c⟩ ∧
      (GetJob c sel name none (.error .timeout) now).conn.closed = true ∧
      IsAlive (GetJob c sel name none (.error .timeout) now).conn = false ∧
      (GetJob c sel name none (.error .timeout) now).conn.log
        = c.log ++ [⟨.debug, "server closing connection"⟩] ∧
      (GetJob c sel name none (.error .timeout) now).conn.connFailures
        = c.connFailures) ∧
    (c.serverClosing = false →
      (GetJob c sel name none (.error .eof) now).ok = false ∧
      (GetJob c sel name none (.error .eof) now).conn.closed = true ∧
      (GetJob c sel name none (.error .eof) now).conn.transportClosed = true ∧
      (GetJob c sel name none (.error .eof) now).conn.log
        = c.log ++ [⟨.debug, "closed by client"⟩] ∧
      (GetJob c sel name none (.error .eof) now).conn.connFailures
        = c.connFailures) ∧
    (c.serverClosing = false →
      (GetJob c sel name none (.error .other) now).ok = false ∧
      (GetJob c sel name none (.error .other) now).conn.closed = true ∧
      (GetJob c sel name none (.error .other) now).conn.transportClosed = true ∧
      (GetJob c sel name none (.error .other) now).conn.log
        = c.log ++ [⟨.error, "encountered error"⟩] ∧
      (GetJob c sel name none (.error .other) now).conn.connFailures
        = c.connFailures + 1) ∧
    (c.serverClosing = true → ∀ e, e ≠ GoError.timeout →
      (GetJob c sel name none (.error e) now).ok = false ∧
      (GetJob c sel name none (.error e) now).conn.closed = true ∧
      (GetJob c sel name none (.error e) now).conn.log = c.log) := by
  refine ⟨?_, ?_, ?_, ?_⟩
  · intro h
    refine ⟨rfl, ?_, ?_, ?_, ?_⟩ <;>
      simp [GetJob, Destroy, LogConnErr, IsAlive, h]
  · intro h
    refine ⟨rfl, ?_, ?_, ?_, ?_⟩ <;> simp [GetJob, LogConnErr, h]
  · intro h
    refine ⟨rfl, ?_, ?_, ?_, ?_⟩ <;> simp [GetJob, LogConnErr, h]
  · intro h e he
    cases e with
    | timeout => exact absurd rfl he
    | eof => exact ⟨rfl, by simp [GetJob, LogConnErr, h], by simp [GetJob, LogConnErr, h]⟩
    | other => exact ⟨rfl, by simp [GetJob, LogConnErr, h], by simp [GetJob, LogConnErr, h]⟩

/-- Witness for C6 (amended): a timeout on a fresh connection destroys
it with one debug log and no failure count. -/
theorem getJob_error_paths_witness :
    GetJob initConn (fun _ => 0) "c" none (.error .timeout) 10
      = ⟨none, none, false, Destroy initConn⟩ ∧
    (GetJob initConn (fun _ => 0) "c" none (.error .timeout) 10).conn.closed
      = true ∧
    IsAlive (GetJob initConn (fun _ => 0) "c" none
      (.error .timeout) 10).conn = false ∧
    (GetJob initConn (fun _ => 0) "c" none (.error .timeout) 10).conn.log
      = initConn.log ++ [⟨.debug, "server closing connection"⟩] ∧
    (GetJob initConn (fun _ => 0) "c" none
      (.error .timeout) 10).conn.connFailures = initConn.connFailures :=
  (getJob_error_paths initConn (fun _ => 0) "c" 10).1 rfl

/-- **C4, counterexample.** Fingerprint 1's candidates are
`["a","b"]`; `b` has an open cached connection (id 6) so the claim's
premise holds, yet `DialAny` — which collects cached candidates without
checking openness — returns the *closed* cached connection of `a`
(id 5) when the random index selects it. -/
theorem dialAny_returns_closed_cached_cex :
    alookup "b" stMixedCache.conns = some ⟨6, true⟩ ∧
    "b" ∈ (lookupSlice stMixedCache.allServers 1).view ∧
    DialAny stMixedCache (fun _ => false) [0] 1
      = (.ok ⟨5, false⟩, stMixedCache) ∧
    (GConn.mk 5 false).isOpen = false := by
  refine ⟨rfl, ?_, rfl, rfl⟩
  simp [lookupSlice, stMixedCache, GoSlice.view, alookup]

/-- **C4, amended.** Whenever some registered candidate has a cache
entry — open or not — `DialAny` returns the entry at a uniformly random
index of the cached-candidate list, attempts no dial (the state is
unchanged), and the returned connection is the cached connection of one
of the registered candidates; it is not necessarily open. -/
theorem dialAny_cached_preference (st : ClientState)
    (dialOk : String → Bool) (rng : List Nat) (ski : Nat)
    (hx : cachedCandidates st ski ≠ []) :
    DialAny st dialOk rng ski =
      (.ok ((cachedCandidates st ski).getD
          (rng.headD 0 % (cachedCandidates st ski).length) default), st) ∧
    ∃ srv ∈ (lookupSlice st.allServers ski).view,
      alookup srv st.conns =
        some ((cachedCandidates st ski).getD
          (rng.headD 0 % (cachedCandidates st ski).length) default) := by
  have hlen : (lookupSlice st.allServers ski).len ≠ 0 := by
    intro h0
    apply hx
    simp [cachedCandidates, GoSlice.view, h0]
  have hpos : 0 < (cachedCandidates st ski).length :=
    List.length_pos.mpr hx
  have hidx : rng.headD 0 % (cachedCandidates st ski).length
      < (cachedCandidates st ski).length := Nat.mod_lt _ hpos
  constructor
  · simp only [DialAny, hlen, if_false]
    rw [if_pos]
    · rfl
    · exact hpos
  · have hmem : (cachedCandidates st ski).getD
        (rng.headD 0 % (cachedCandidates st ski).length) default
          ∈ cachedCandidates st ski := by
      rw [List.getD_eq_getElem _ _ hidx]
      exact List.getElem_mem hidx
    have := List.mem_filterMap.mp hmem
    simpa [cachedCandidates] using this

/-- Witness for C4 (amended): on the mixed cache, random index 1 picks
the open cached connection of `b`, with no dial and no state change. -/
theorem dialAny_cached_preference_witness :
    DialAny stMixedCache (fun _ => false) [1] 1
      = (.ok ⟨6, true⟩, stMixedCache) :=
  (dialAny_cached_preference stMixedCache (fun _ => false) [1] 1
    (by decide)).1

/-- **C3, counterexample.** With candidates `["a","b"]` for
fingerprint 1, no cache, and every dial failing, the first removal
(random index 0) shifts the shared backing array in place: after
`DialAny` fails with no-reachable-server, the registry entry still has
length 2 but now reads `["b","b"]` — its addresses are *not* untouched. -/
theorem dialAny_registry_mutation_cex :
    (DialAny stTwoServers (fun _ => false) [0, 0] 1).1
      = .error .noReachable ∧
    (lookupSlice stTwoServers.allServers 1).view = ["a", "b"] ∧
    (lookupSlice
      (DialAny stTwoServers (fun _ => false) [0, 0] 1).2.allServers 1).view
      = ["b", "b"] ∧
    (lookupSlice
      (DialAny stTwoServers (fun _ => false) [0, 0] 1).2.allServers 1).view
      ≠ (lookupSlice stTwoServers.allServers 1).view ∧
    (lookupSlice
      (DialAny stTwoServers (fun _ => false) [0, 0] 1).2.allServers 1).len
      = (lookupSlice stTwoServers.allServers 1).len := by
  exact ⟨rfl, rfl, rfl, by decide, rfl⟩

theorem dialFresh_allServers (st : ClientState) (dialOk : String → Bool)
    (srv : String) :
    (dialFresh st dialOk srv).2.allServers = st.allServers := by
  by_cases h : dialOk srv <;> simp [dialFresh, h]

theorem dial_allServers (st : ClientState) (dialOk : String → Bool)
    (srv : String) :
    (Dial st dialOk srv).2.allServers = st.allServers := by
  by_cases hcfg : st.configOk
  · rcases hlk : alookup srv st.conns with _ | c
    · simp [Dial, hcfg, hlk, dialFresh_allServers]
    · by_cases hopen : c.isOpen
      · simp [Dial, hcfg, hlk, hopen]
      · simp [Dial, hcfg, hlk, hopen, dialFresh_allServers]
  · simp [Dial, hcfg]

theorem dialLoop_allServers (dialOk : String → Bool) :
    ∀ (L : Nat) (st : ClientState) (b : List String) (rng : List Nat),
    (dialLoop dialOk L st b rng).1.2.allServers = st.allServers := by
  intro L
  induction L with
  | zero => intro st b rng; rfl
  | succ L ih =>
      intro st b rng
      rcases hD : Dial st dialOk ((b.take (L + 1)).getD
          (rng.headD 0 % (L + 1)) "") with ⟨res, st'⟩
      have hAS : st'.allServers = st.allServers := by
        have := dial_allServers st dialOk
          ((b.take (L + 1)).getD (rng.headD 0 % (L + 1)) "")
        rw [hD] at this
        exact this
      simp only [dialLoop]
      rw [hD]
      cases res with
      | ok conn => exact hAS
      | error e => rw [ih]; exact hAS

/-- **C3, amended.** A failed `DialAny` resolution never changes the
registry's *structure*: the fingerprint's entry keeps its slice header
(same length — the registry is never pruned) and every other
fingerprint's entry is untouched; but because the working copy shares
the entry's backing array, the removals may permute or duplicate the
addresses read through the entry (as the counterexample shows), so only
the length, not the address sequence, is preserved. -/
theorem dialAny_preserves_registry_length (st : ClientState)
    (dialOk : String → Bool) (rng : List Nat) (ski : Nat) :
    (lookupSlice (DialAny st dialOk rng ski).2.allServers ski).len
      = (lookupSlice st.allServers ski).len ∧
    ∀ k, k ≠ ski →
      alookup k (DialAny st dialOk rng ski).2.allServers
        = alookup k st.allServers := by
  by_cases h0 : (lookupSlice st.allServers ski).len = 0
  · constructor
    · simp [DialAny, h0]
    · intro k hk; simp [DialAny, h0]
  · by_cases hx : 0 < (cachedCandidates st ski).length
    · have heq : DialAny st dialOk rng ski =
          (.ok ((cachedCandidates st ski).getD
            (rng.headD 0 % (cachedCandidates st ski).length) default), st) := by
        simp only [DialAny, h0, if_false]
        rw [if_pos]
        · rfl
        · exact hx
      rw [heq]
      exact ⟨rfl, fun k hk => rfl⟩
    · have hloop := dialLoop_allServers dialOk
        (lookupSlice st.allServers ski).len st
        (lookupSlice st.allServers ski).backing rng
      have hstep : (DialAny st dialOk rng ski).2.allServers =
          aset ski
            ⟨(dialLoop dialOk (lookupSlice st.allServers ski).len st
                (lookupSlice st.allServers ski).backing rng).2,
             (lookupSlice st.allServers ski).len⟩
            (dialLoop dialOk (lookupSlice st.allServers ski).len st
                (lookupSlice st.allServers ski).backing rng).1.2.allServers := by
        simp only [DialAny, h0, if_false]
        rw [if_neg]
        exact hx
      constructor
      · rw [hstep]
        simp [lookupSlice, alookup_aset_self]
      · intro k hk
        rw [hstep, alookup_aset_ne _ _ hk, hloop]

/-- Witness for C3 (amended): on the concrete failing resolution, the
entry for fingerprint 1 keeps length 2 and the (absent) entry for
fingerprint 2 is untouched. -/
theorem dialAny_preserves_registry_length_witness :
    (lookupSlice
      (DialAny stTwoServers (fun _ => false) [0, 0] 1).2.allServers 1).len
      = (lookupSlice stTwoServers.allServers 1).len ∧
    alookup 2 (DialAny stTwoServers (fun _ => false) [0, 0] 1).2.allServers
      = alookup 2 stTwoServers.allServers :=
  ⟨(dialAny_preserves_registry_length stTwoServers (fun _ => false) [0, 0] 1).1,
   (dialAny_preserves_registry_length stTwoServers
      (fun _ => false) [0, 0] 1).2 2 (by decide)⟩

theorem dial_fails_of (st : ClientState) (dialOk : String → Bool)
    (srv : String) (hnone : alookup srv st.conns = none)
    (hcond : st.configOk = false ∨ dialOk srv = false) :
    ∃ e, Dial st dialOk srv = (.error e, st) := by
  rcases hcond with h | h
  · exact ⟨.configErr, by simp [Dial, h]⟩
  · by_cases hcfg : st.configOk
    · exact ⟨.dialFailed, by simp [Dial, hcfg, hnone, dialFresh, h]⟩
    · exact ⟨.configErr, by simp [Dial, hcfg]⟩

theorem dial_fail_cond (st : ClientState) (dialOk : String → Bool)
    (srv : String) (e : DialErr) (st' : ClientState)
    (hnone : alookup srv st.conns = none)
    (hD : Dial st dialOk srv = (.error e, st')) :
    (st.configOk = false ∨ dialOk srv = false) ∧ st' = st := by
  by_cases hcfg : st.configOk
  · by_cases hd : dialOk srv
    · simp [Dial, hcfg, hnone, dialFresh, hd] at hD
    · simp [Dial, hcfg, hnone, dialFresh, hd] at hD
      exact ⟨Or.inr (by simpa using hd), hD.2.symm⟩
  · simp [Dial, hcfg] at hD
    exact ⟨Or.inl (by simpa using hcfg), hD.2.symm⟩

theorem dial_ok_cached (st : ClientState) (dialOk : String → Bool)
    (srv : String) (conn : GConn) (st' : ClientState)
    (hD : Dial st dialOk srv = (.ok conn, st')) :
    alookup srv st'.conns = some conn := by
  by_cases hcfg : st.configOk
  · rcases hlk : alookup srv st.conns with _ | c
    · by_cases hd : dialOk srv
      · simp [Dial, hcfg, hlk, dialFresh, hd] at hD
        obtain ⟨hc, hst⟩ := hD
        rw [← hst]
        simp [alookup_aset_self, hc]
      · simp [Dial, hcfg, hlk, dialFresh, hd] at hD
    · by_cases hopen : c.isOpen
      · simp [Dial, hcfg, hlk, hopen] at hD
        obtain ⟨hc, hst⟩ := hD
        rw [← hst, ← hc]
        exact hlk
      · by_cases hd : dialOk srv
        · simp [Dial, hcfg, hlk, hopen, dialFresh, hd] at hD
          obtain ⟨hc, hst⟩ := hD
          rw [← hst]
          simp [alookup_aset_self, hc]
        · simp [Dial, hcfg, hlk, hopen, dialFresh, hd] at hD
  · simp [Dial, hcfg] at hD

theorem length_sliceRemove (b : List String) (L n : Nat)
    (hL : L + 1 ≤ b.length) (hn : n < L + 1) :
    (sliceRemove b (L + 1) n).length = b.length := by
  have ht : (b.take (L + 1)).length = L + 1 := by
    rw [List.length_take]; omega
  have : n < (b.take (L + 1)).length := by omega
  simp only [sliceRemove, List.length_append,
    List.length_eraseIdx_of_lt this, List.length_drop, ht]
  omega

theorem take_sliceRemove (b : List String) (L n : Nat)
    (hL : L + 1 ≤ b.length) (hn : n < L + 1) :
    (sliceRemove b (L + 1) n).take L = (b.take (L + 1)).eraseIdx n := by
  have ht : (b.take (L + 1)).length = L + 1 := by
    rw [List.length_take]; omega
  have hlt : n < (b.take (L + 1)).length := by omega
  have hlen : ((b.take (L + 1)).eraseIdx n).length = L := by
    rw [List.length_eraseIdx_of_lt hlt, ht]
    omega
  simp only [sliceRemove, Nat.add_sub_cancel]
  exact List.take_left' hlen

theorem mem_getD_or_eraseIdx (l : List String) (n : Nat) (x : String)
    (hn : n < l.length) (hx : x ∈ l) :
    x = l.getD n "" ∨ x ∈ l.eraseIdx n := by
  rw [List.getD_eq_getElem _ _ hn, List.eraseIdx_eq_take_drop_succ]
  have hsplit : l = l.take n ++ l[n] :: l.drop (n + 1) := by
    conv_lhs => rw [← List.take_append_drop n l]
    rw [List.drop_eq_getElem_cons hn]
  rw [hsplit] at hx
  rcases List.mem_append.mp hx with h | h
  · exact Or.inr (List.mem_append.mpr (Or.inl h))
  · rcases List.mem_cons.mp h with h | h
    · exact Or.inl h
    · exact Or.inr (List.mem_append.mpr (Or.inr h))

theorem dialLoop_all_fail (dialOk : String → Bool) :
    ∀ (L : Nat) (st : ClientState) (b : List String) (rng : List Nat),
    L ≤ b.length →
    (∀ srv ∈ b.take L, alookup srv st.conns = none) →
    (∀ srv ∈ b.take L, st.configOk = false ∨ dialOk srv = false) →
    (dialLoop dialOk L st b rng).1 = (.error .noReachable, st) := by
  intro L
  induction L with
  | zero => intro st b rng _ _ _; rfl
  | succ L ih =>
      intro st b rng hL hnone hfail
      have hlt : rng.headD 0 % (L + 1) < L + 1 := Nat.mod_lt _ (Nat.succ_pos L)
      have hlen_take : (b.take (L + 1)).length = L + 1 := by
        rw [List.length_take]; omega
      have hidx : rng.headD 0 % (L + 1) < (b.take (L + 1)).length := by omega
      have haddr : (b.take (L + 1)).getD (rng.headD 0 % (L + 1)) ""
          ∈ b.take (L + 1) := by
        rw [List.getD_eq_getElem _ _ hidx]
        exact List.getElem_mem hidx
      obtain ⟨e, hE⟩ := dial_fails_of st dialOk _ (hnone _ haddr) (hfail _ haddr)
      simp only [dialLoop]
      rw [hE]
      apply ih
      · rw [length_sliceRemove b L _ hL hlt]; omega
      · intro srv hsrv
        rw [take_sliceRemove b L _ hL hlt] at hsrv
        exact hnone srv (List.eraseIdx_subset _ _ hsrv)
      · intro srv hsrv
        rw [take_sliceRemove b L _ hL hlt] at hsrv
        exact hfail srv (List.eraseIdx_subset _ _ hsrv)

theorem dialLoop_error_inv (dialOk : String → Bool) :
    ∀ (L : Nat) (st : ClientState) (b : List String) (rng : List Nat)
      (e : DialErr),
    L ≤ b.length →
    (∀ srv ∈ b.take L, alookup srv st.conns = none) →
    (dialLoop dialOk L st b rng).1.1 = .error e →
    e = .noReachable ∧
      ∀ srv ∈ b.take L, st.configOk = false ∨ dialOk srv = false := by
  intro L
  induction L with
  | zero =>
      intro st b rng e _ _ hres
      refine ⟨?_, by simp⟩
      have : (Except.error DialErr.noReachable : Except DialErr GConn)
          = .error e := hres
      simpa using this.symm
  | succ L ih =>
      intro st b rng e hL hnone hres
      have hlt : rng.headD 0 % (L + 1) < L + 1 := Nat.mod_lt _ (Nat.succ_pos L)
      have hlen_take : (b.take (L + 1)).length = L + 1 := by
        rw [List.length_take]; omega
      have hidx : rng.headD 0 % (L + 1) < (b.take (L + 1)).length := by omega
      have haddr : (b.take (L + 1)).getD (rng.headD 0 % (L + 1)) ""
          ∈ b.take (L + 1) := by
        rw [List.getD_eq_getElem _ _ hidx]
        exact List.getElem_mem hidx
      rcases hD : Dial st dialOk ((b.take (L + 1)).getD
          (rng.headD 0 % (L + 1)) "") with ⟨res, st'⟩
      simp only [dialLoop] at hres
      rw [hD] at hres
      cases res with
      | ok conn => simp at hres
      | error e' =>
          obtain ⟨hcond, hst⟩ := dial_fail_cond st dialOk _ e' st'
            (hnone _ haddr) hD
          rw [hst] at hres
          obtain ⟨he, hrest⟩ := ih st _ rng.tail e
            (by rw [length_sliceRemove b L _ hL hlt]; omega)
            (by
              intro srv hsrv
              rw [take_sliceRemove b L _ hL hlt] at hsrv
              exact hnone srv (List.eraseIdx_subset _ _ hsrv))
            hres
          refine ⟨he, ?_⟩
          intro srv hsrv
          rcases mem_getD_or_eraseIdx (b.take (L + 1)) _ srv hidx hsrv with
            h | h
          · rw [h]; exact hcond
          · apply hrest
            rw [take_sliceRemove b L _ hL hlt]
            exact h

theorem dialLoop_ok_inv (dialOk : String → Bool) :
    ∀ (L : Nat) (st : ClientState) (b : List String) (rng : List Nat)
      (conn : GConn) (st' : ClientState),
    L ≤ b.length →
    (dialLoop dialOk L st b rng).1 = (.ok conn, st') →
    ∃ srv ∈ b.take L, alookup srv st'.conns = some conn := by
  intro L
  induction L with
  | zero => intro st b rng conn st' _ hres; simp [dialLoop] at hres
  | succ L ih =>
      intro st b rng conn st' hL hres
      have hlt : rng.headD 0 % (L + 1) < L + 1 := Nat.mod_lt _ (Nat.succ_pos L)
      have hlen_take : (b.take (L + 1)).length = L + 1 := by
        rw [List.length_take]; omega
      have hidx : rng.headD 0 % (L + 1) < (b.take (L + 1)).length := by omega
      rcases hD : Dial st dialOk ((b.take (L + 1)).getD
          (rng.headD 0 % (L + 1)) "") with ⟨res, st''⟩
      simp only [dialLoop] at hres
      rw [hD] at hres
      cases res with
      | ok c =>
          simp only [Prod.mk.injEq, Except.ok.injEq] at hres
          obtain ⟨hc, hst⟩ := hres
          refine ⟨(b.take (L + 1)).getD (rng.headD 0 % (L + 1)) "",
            ?_, ?_⟩
          · rw [List.getD_eq_getElem _ _ hidx]
            exact List.getElem_mem hidx
          · rw [← hst, ← hc]
            exact dial_ok_cached st dialOk _ c st'' hD
      | error e =>
          obtain ⟨srv, hmem, hlk⟩ := ih st'' _ rng.tail conn st'
            (by rw [length_sliceRemove b L _ hL hlt]; omega) hres
          refine ⟨srv, ?_, hlk⟩
          rw [take_sliceRemove b L _ hL hlt] at hmem
          exact List.eraseIdx_subset _ _ hmem

/-- **C5.** `DialAny` fails exactly in two situations: an empty
candidate list (immediate "no servers" error, no dial attempted, state
untouched) or — with no cached candidate — every candidate failing to
dial (the working copy empties out: "no reachable server"). Every error
is one of those two, and any successful outcome returns a connection
cached (in the resulting state) under one of the registered candidates.
The well-formedness hypothesis is the Go slice invariant `len ≤ cap`. -/
theorem dialAny_error_iff (st : ClientState) (dialOk : String → Bool)
    (rng : List Nat) (ski : Nat)
    (hwf : (lookupSlice st.allServers ski).len
      ≤ (lookupSlice st.allServers ski).backing.length) :
    ((lookupSlice st.allServers ski).len = 0 →
      DialAny st dialOk rng ski = (.error .noServers, st)) ∧
    (∀ e, (DialAny st dialOk rng ski).1 = .error e →
      (e = .noServers ∧ (lookupSlice st.allServers ski).len = 0) ∨
      (e = .noReachable ∧ (lookupSlice st.allServers ski).len ≠ 0 ∧
        cachedCandidates st ski = [] ∧
        ∀ srv ∈ (lookupSlice st.allServers ski).view,
          st.configOk = false ∨ dialOk srv = false)) ∧
    ((lookupSlice st.allServers ski).len ≠ 0 →
      cachedCandidates st ski = [] →
      (∀ srv ∈ (lookupSlice st.allServers ski).view,
        st.configOk = false ∨ dialOk srv = false) →
      (DialAny st dialOk rng ski).1 = .error .noReachable) ∧
    (∀ conn, (DialAny st dialOk rng ski).1 = .ok conn →
      ∃ srv ∈ (lookupSlice st.allServers ski).view,
        alookup srv (DialAny st dialOk rng ski).2.conns = some conn) := by
  by_cases h0 : (lookupSlice st.allServers ski).len = 0
  · have hout : DialAny st dialOk rng ski = (.error .noServers, st) := by
      simp [DialAny, h0]
    refine ⟨fun _ => hout, ?_, fun h => absurd h0 h, ?_⟩
    · intro e he
      rw [hout] at he
      exact Or.inl ⟨(Except.error.inj he).symm, h0⟩
    · intro conn hc
      rw [hout] at hc
      exact absurd hc (by simp)
  · by_cases hx : 0 < (cachedCandidates st ski).length
    · have heq : DialAny st dialOk rng ski =
          (.ok ((cachedCandidates st ski).getD
            (rng.headD 0 % (cachedCandidates st ski).length) default), st) := by
        simp only [DialAny, h0, if_false]
        rw [if_pos]
        · rfl
        · exact hx
      refine ⟨fun h => absurd h h0, ?_, ?_, ?_⟩
      · intro e he
        rw [heq] at he
        exact absurd he (by simp)
      · intro _ hcc
        rw [hcc] at hx
        exact absurd hx (by simp)
      · intro conn hc
        rw [heq] at hc
        have hidx : rng.headD 0 % (cachedCandidates st ski).length
            < (cachedCandidates st ski).length := Nat.mod_lt _ hx
        have hmem : (cachedCandidates st ski).getD
            (rng.headD 0 % (cachedCandidates st ski).length) default
              ∈ cachedCandidates st ski := by
          rw [List.getD_eq_getElem _ _ hidx]
          exact List.getElem_mem hidx
        obtain ⟨srv, hsrv, hlk⟩ := List.mem_filterMap.mp hmem
        refine ⟨srv, hsrv, ?_⟩
        rw [heq]
        rw [hlk, Except.ok.inj hc]
    · have hcc : cachedCandidates st ski = [] := by
        cases hcc' : cachedCandidates st ski with
        | nil => rfl
        | cons a l => rw [hcc'] at hx; simp at hx
      have hnone : ∀ srv ∈ (lookupSlice st.allServers ski).view,
          alookup srv st.conns = none := by
        have := List.filterMap_eq_nil_iff.mp
          (by simpa [cachedCandidates] using hcc)
        exact this
      have hstep : DialAny st dialOk rng ski =
          ((dialLoop dialOk (lookupSlice st.allServers ski).len st
              (lookupSlice st.allServers ski).backing rng).1.1,
           { (dialLoop dialOk (lookupSlice st.allServers ski).len st
                (lookupSlice st.allServers ski).backing rng).1.2 with
             allServers := aset ski
               ⟨(dialLoop dialOk (lookupSlice st.allServers ski).len st
                   (lookupSlice st.allServers ski).backing rng).2,
                (lookupSlice st.allServers ski).len⟩
               (dialLoop dialOk (lookupSlice st.allServers ski).len st
                   (lookupSlice st.allServers ski).backing rng).1.2.allServers }) := by
        simp only [DialAny, h0, if_false]
        rw [if_neg]
        exact hx
      refine ⟨fun h => absurd h h0, ?_, ?_, ?_⟩
      · intro e he
        rw [hstep] at he
        obtain ⟨hne, hall⟩ := dialLoop_error_inv dialOk
          (lookupSlice st.allServers ski).len st
          (lookupSlice st.allServers ski).backing rng e hwf
          (by exact hnone) he
        exact Or.inr ⟨hne, h0, hcc, by exact hall⟩
      · intro _ _ hfail
        rw [hstep]
        have := dialLoop_all_fail dialOk
          (lookupSlice st.allServers ski).len st
          (lookupSlice st.allServers ski).backing rng hwf
          (by exact hnone) (by exact hfail)
        rw [this]
      · intro conn hc
        rw [hstep] at hc
        obtain ⟨srv, hsrv, hlk⟩ := dialLoop_ok_inv dialOk
          (lookupSlice st.allServers ski).len st
          (lookupSlice st.allServers ski).backing rng conn
          (dialLoop dialOk (lookupSlice st.allServers ski).len st
              (lookupSlice st.allServers ski).backing rng).1.2 hwf
          (by rw [← hc])
        refine ⟨srv, by exact hsrv, ?_⟩
        rw [hstep]
        exact hlk

/-- Witness for C5: an empty registry entry makes `DialAny` fail
immediately with the "no servers" error, state untouched. -/
theorem dialAny_error_iff_witness :
    DialAny ⟨true, [], [], 0⟩ (fun _ => true) [0] 1
      = (.error .noServers, ⟨true, [], [], 0⟩) :=
  (dialAny_error_iff ⟨true, [], [], 0⟩ (fun _ => true) [0] 1
    (by decide)).1 rfl

theorem countP_set_eq (p : DThread → Bool) (ts : List DThread) :
    ∀ (i : Nat) (t t' : DThread), ts.get? i = some t →
    (ts.set i t').countP p + (if p t then 1 else 0)
      = ts.countP p + (if p t' then 1 else 0) := by
  induction ts with
  | nil => intro i t t' hget; simp at hget
  | cons hd tl ih =>
      intro i t t' hget
      cases i with
      | zero =>
          obtain rfl : hd = t := by simpa using hget
          simp only [List.set, List.countP_cons]
          omega
      | succ i =>
          have hget' : tl.get? i = some t := by simpa using hget
          have := ih i t t' hget'
          simp only [List.set, List.countP_cons]
          omega

theorem countP_other_zero (p q : DThread → Bool)
    (hpq : ∀ x, q x = true → p x = true) :
    ∀ (ts : List DThread) (i : Nat) (t : DThread), ts.get? i = some t →
    p t = true → q t = false → ts.countP p ≤ 1 → ts.countP q = 0 := by
  intro ts
  induction ts with
  | nil => intro i t hget; simp at hget
  | cons hd tl ih =>
      intro i t hget hp hq h1
      cases i with
      | zero =>
          obtain rfl : hd = t := by simpa using hget
          rw [List.countP_cons] at h1 ⊢
          simp only [hp, hq] at h1 ⊢
          have hmono := List.countP_mono_left
            (l := tl) (p := q) (q := p) (fun x _ hx => hpq x hx)
          simp only [if_true] at h1
          simp only [Bool.false_eq_true, if_false]
          omega
      | succ i =>
          have hget' : tl.get? i = some t := by simpa using hget
          by_cases hhd : q hd = true
          · exfalso
            have hphd : p hd = true := hpq hd hhd
            have htl : 0 < tl.countP p :=
              List.countP_pos_iff.mpr ⟨t, List.get?_mem hget', hp⟩
            rw [List.countP_cons] at h1
            simp only [hphd, if_true] at h1
            omega
          · rw [List.countP_cons] at h1 ⊢
            simp only [hhd] at h1 ⊢
            simp only [Bool.false_eq_true, if_false]
            have htail : tl.countP p ≤ 1 := by omega
            have := ih i t hget' hp hq htail
            omega

theorem destroyInv_init (n : Nat) : DestroyInv (destroyInit n) := by
  have hz : ∀ p : DThread → Bool, p .atCAS = false →
      (List.replicate n DThread.atCAS).countP p = 0 := by
    intro p hp
    induction n with
    | zero => rfl
    | succ n ih =>
        rw [List.replicate_succ, List.countP_cons]
        simp [hp, ih]
  refine ⟨?_, ?_, ?_, ?_, ?_, ?_⟩ <;>
    simp [destroyInit, hz isWinner rfl, hz pastLog rfl, hz pastClose rfl,
      hz isWon rfl, hz isLost rfl]

theorem destroyInv_step (r : DestroyRun) (i : Nat) (h : DestroyInv r) :
    DestroyInv (destroyStep r i) := by
  obtain ⟨h1, h2, h3, h4, h5, h6⟩ := h
  cases hget : r.threads.get? i with
  | none =>
      simp only [destroyStep, hget]
      exact ⟨h1, h2, h3, h4, h5, h6⟩
  | some t =>
      cases t with
      | atCAS =>
          by_cases hsc : r.serverClosing = true
          · have heq : destroyStep r i =
                { r with threads := r.threads.set i .lostDone } := by
              simp only [destroyStep]
              rw [hget]
              exact if_pos hsc
            have hW := countP_set_eq isWinner r.threads i .atCAS .lostDone hget
            have hL := countP_set_eq pastLog r.threads i .atCAS .lostDone hget
            have hC := countP_set_eq pastClose r.threads i .atCAS .lostDone hget
            have hS := countP_set_eq isWon r.threads i .atCAS .lostDone hget
            simp [isWinner, pastLog, pastClose, isWon] at hW hL hC hS
            rw [heq]
            refine ⟨?_, ?_, ?_, ?_, ?_, ?_⟩ <;> dsimp only
            · omega
            · constructor
              · intro hh; have := h2.mp hh; omega
              · intro hh; exact h2.mpr (by omega)
            · omega
            · constructor
              · intro hh; have := h4.mp hh; omega
              · intro hh; exact h4.mpr (by omega)
            · constructor
              · intro hh; have := h5.mp hh; omega
              · intro hh; exact h5.mpr (by omega)
            · intro _
              have := h2.mp hsc
              omega
          · have hW0 : r.threads.countP isWinner = 0 := by
              have hne : r.threads.countP isWinner ≠ 1 := by
                intro hh
                exact hsc (h2.mpr hh)
              omega
            have heq : destroyStep r i =
                { r with threads := r.threads.set i .willLog,
                         serverClosing := true } := by
              simp only [destroyStep]
              rw [hget]
              exact if_neg hsc
            have hW := countP_set_eq isWinner r.threads i .atCAS .willLog hget
            have hL := countP_set_eq pastLog r.threads i .atCAS .willLog hget
            have hC := countP_set_eq pastClose r.threads i .atCAS .willLog hget
            have hS := countP_set_eq isWon r.threads i .atCAS .willLog hget
            have hLo := countP_set_eq isLost r.threads i .atCAS .willLog hget
            simp [isWinner, pastLog, pastClose, isWon, isLost]
              at hW hL hC hS hLo
            rw [heq]
            refine ⟨?_, ?_, ?_, ?_, ?_, ?_⟩ <;> dsimp only
            · omega
            · constructor
              · intro _; omega
              · intro _; rfl
            · omega
            · constructor
              · intro hh; have := h4.mp hh; omega
              · intro hh; exact h4.mpr (by omega)
            · constructor
              · intro hh; have := h5.mp hh; omega
              · intro hh; exact h5.mpr (by omega)
            · intro _; omega
      | willLog =>
          have heq : destroyStep r i =
              { r with threads := r.threads.set i .willClose,
                       closingLogs := r.closingLogs + 1 } := by
            simp only [destroyStep]
            rw [hget]
          have hW := countP_set_eq isWinner r.threads i .willLog .willClose hget
          have hL := countP_set_eq pastLog r.threads i .willLog .willClose hget
          have hC := countP_set_eq pastClose r.threads i .willLog .willClose hget
          have hS := countP_set_eq isWon r.threads i .willLog .willClose hget
          have hLo := countP_set_eq isLost r.threads i .willLog .willClose hget
          simp [isWinner, pastLog, pastClose, isWon, isLost]
            at hW hL hC hS hLo
          rw [heq]
          refine ⟨?_, ?_, ?_, ?_, ?_, ?_⟩ <;> dsimp only
          · omega
          · constructor
            · intro hh; have := h2.mp hh; omega
            · intro hh; exact h2.mpr (by omega)
          · omega
          · constructor
            · intro hh; have := h4.mp hh; omega
            · intro hh; exact h4.mpr (by omega)
          · constructor
            · intro hh; have := h5.mp hh; omega
            · intro hh; exact h5.mpr (by omega)
          · intro hh; have := h6 (by omega); omega
      | willClose =>
          have hC0 : r.threads.countP pastClose = 0 :=
            countP_other_zero isWinner pastClose
              (by intro x hx; cases x <;> simp_all [isWinner, pastClose])
              r.threads i .willClose hget rfl rfl h1
          have heq : destroyStep r i =
              { r with threads := r.threads.set i .willStore,
                       transportClosed := true } := by
            simp only [destroyStep]
            rw [hget]
          have hW := countP_set_eq isWinner r.threads i .willClose .willStore hget
          have hL := countP_set_eq pastLog r.threads i .willClose .willStore hget
          have hC := countP_set_eq pastClose r.threads i .willClose .willStore hget
          have hS := countP_set_eq isWon r.threads i .willClose .willStore hget
          have hLo := countP_set_eq isLost r.threads i .willClose .willStore hget
          simp [isWinner, pastLog, pastClose, isWon, isLost]
            at hW hL hC hS hLo
          rw [heq]
          refine ⟨?_, ?_, ?_, ?_, ?_, ?_⟩ <;> dsimp only
          · omega
          · constructor
            · intro hh; have := h2.mp hh; omega
            · intro hh; exact h2.mpr (by omega)
          · omega
          · constructor
            · intro _; omega
            · intro _; rfl
          · constructor
            · intro hh; have := h5.mp hh; omega
            · intro hh; exact h5.mpr (by omega)
          · intro hh; have := h6 (by omega); omega
      | willStore =>
          have hS0 : r.threads.countP isWon = 0 :=
            countP_other_zero isWinner isWon
              (by intro x hx; cases x <;> simp_all [isWinner, isWon])
              r.threads i .willStore hget rfl rfl h1
          have heq : destroyStep r i =
              { r with threads := r.threads.set i .wonDone,
                       closed := true } := by
            simp only [destroyStep]
            rw [hget]
          have hW := countP_set_eq isWinner r.threads i .willStore .wonDone hget
          have hL := countP_set_eq pastLog r.threads i .willStore .wonDone hget
          have hC := countP_set_eq pastClose r.threads i .willStore .wonDone hget
          have hS := countP_set_eq isWon r.threads i .willStore .wonDone hget
          have hLo := countP_set_eq isLost r.threads i .willStore .wonDone hget
          simp [isWinner, pastLog, pastClose, isWon, isLost]
            at hW hL hC hS hLo
          rw [heq]
          refine ⟨?_, ?_, ?_, ?_, ?_, ?_⟩ <;> dsimp only
          · omega
          · constructor
            · intro hh; have := h2.mp hh; omega
            · intro hh; exact h2.mpr (by omega)
          · omega
          · constructor
            · intro hh; have := h4.mp hh; omega
            · intro hh; exact h4.mpr (by omega)
          · constructor
            · intro _; omega
            · intro _; rfl
          · intro hh; have := h6 (by omega); omega
      | wonDone =>
          simp only [destroyStep, hget]
          exact ⟨h1, h2, h3, h4, h5, h6⟩
      | lostDone =>
          simp only [destroyStep, hget]
          exact ⟨h1, h2, h3, h4, h5, h6⟩

theorem destroyInv_run (n : Nat) (sched : List Nat) :
    DestroyInv (destroyRunSched n sched) := by
  suffices h : ∀ r : DestroyRun, DestroyInv r →
      DestroyInv (sched.foldl destroyStep r) by
    exact h (destroyInit n) (destroyInv_init n)
  induction sched with
  | nil => intro r h; exact h
  | cons a l ih =>
      intro r h
      exact ih (destroyStep r a) (destroyInv_step r a h)

theorem destroyStep_length (r : DestroyRun) (i : Nat) :
    (destroyStep r i).threads.length = r.threads.length := by
  cases hget : r.threads.get? i with
  | none => simp only [destroyStep, hget]
  | some t =>
      cases t with
      | atCAS => simp only [destroyStep]; rw [hget]; dsimp only; split <;> simp
      | willLog => simp only [destroyStep]; rw [hget]; simp
      | willClose => simp only [destroyStep]; rw [hget]; simp
      | willStore => simp only [destroyStep]; rw [hget]; simp
      | wonDone => simp only [destroyStep]; rw [hget]
      | lostDone => simp only [destroyStep]; rw [hget]

theorem destroyRun_length (n : Nat) (sched : List Nat) :
    (destroyRunSched n sched).threads.length = n := by
  suffices h : ∀ r : DestroyRun,
      (sched.foldl destroyStep r).threads.length = r.threads.length by
    rw [destroyRunSched, h (destroyInit n)]
    simp [destroyInit]
  induction sched with
  | nil => intro r; rfl
  | cons a l ih =>
      intro r
      rw [List.foldl_cons, ih (destroyStep r a), destroyStep_length]

/-- **C1.** Concurrent `Destroy` is exactly-once: for any number
`n ≥ 1` of threads each running the four atomic actions of `Destroy`
(CAS on `serverClosing`, "server closing" log, transport close, store
of the closed flag), and any complete interleaving of their steps,
exactly one "server closing" event is logged, the transport is closed,
the closed flag is set (so `IsAlive` would be false), and the
`serverClosing` flag is set — every thread that lost the CAS changed
nothing. -/
theorem destroy_concurrent_exactly_once (n : Nat) (sched : List Nat)
    (hn : 1 ≤ n) (hcomp : destroyComplete (destroyRunSched n sched)) :
    (destroyRunSched n sched).closingLogs = 1 ∧
    (destroyRunSched n sched).closed = true ∧
    (destroyRunSched n sched).transportClosed = true ∧
    (destroyRunSched n sched).serverClosing = true := by
  obtain ⟨h1, h2, h3, h4, h5, h6⟩ := destroyInv_run n sched
  have hlen := destroyRun_length n sched
  have hWone : (destroyRunSched n sched).threads.countP isWinner = 1 := by
    rcases Nat.lt_or_ge 0 ((destroyRunSched n sched).threads.countP isWinner)
      with hpos | hzero
    · omega
    · exfalso
      have hW0 : (destroyRunSched n sched).threads.countP isWinner = 0 := by
        omega
      obtain ⟨t, ht⟩ : ∃ t, t ∈ (destroyRunSched n sched).threads := by
        apply List.exists_mem_of_ne_nil
        intro hnil
        rw [hnil] at hlen
        simp at hlen
        omega
      rcases hcomp t ht with hwon | hlost
      · have : isWinner t = true := by rw [hwon]; rfl
        have := List.countP_pos_iff.mpr ⟨t, ht, this⟩
        omega
      · have : isLost t = true := by rw [hlost]; rfl
        have hpos := List.countP_pos_iff.mpr ⟨t, ht, this⟩
        have := h6 hpos
        omega
  have hSone : (destroyRunSched n sched).threads.countP isWon = 1 := by
    obtain ⟨t, ht, hwt⟩ := List.countP_pos_iff.mp
      (show 0 < (destroyRunSched n sched).threads.countP isWinner by omega)
    rcases hcomp t ht with hwon | hlost
    · have : isWon t = true := by rw [hwon]; rfl
      have hpos := List.countP_pos_iff.mpr ⟨t, ht, this⟩
      have hle := List.countP_mono_left
        (l := (destroyRunSched n sched).threads) (p := isWon) (q := isWinner)
        (by intro x _ hx; cases x <;> simp_all [isWon, isWinner])
      omega
    · rw [hlost] at hwt
      exact absurd hwt (by simp [isWinner])
  have hCone : (destroyRunSched n sched).threads.countP pastClose = 1 := by
    have hup := List.countP_mono_left
      (l := (destroyRunSched n sched).threads) (p := pastClose) (q := isWinner)
      (by intro x _ hx; cases x <;> simp_all [pastClose, isWinner])
    have hlo := List.countP_mono_left
      (l := (destroyRunSched n sched).threads) (p := isWon) (q := pastClose)
      (by intro x _ hx; cases x <;> simp_all [isWon, pastClose])
    omega
  have hLone : (destroyRunSched n sched).threads.countP pastLog = 1 := by
    have hup := List.countP_mono_left
      (l := (destroyRunSched n sched).threads) (p := pastLog) (q := isWinner)
      (by intro x _ hx; cases x <;> simp_all [pastLog, isWinner])
    have hlo := List.countP_mono_left
      (l := (destroyRunSched n sched).threads) (p := isWon) (q := pastLog)
      (by intro x _ hx; cases x <;> simp_all [isWon, pastLog])
    omega
  exact ⟨by omega, h5.mpr hSone, h4.mpr hCone, h2.mpr hWone⟩

/-- Witness for C1: three threads, an interleaved schedule in which
thread 0 wins and threads 1 and 2 race it; the run is complete and
produces exactly one closing log with the connection closed. -/
theorem destroy_concurrent_exactly_once_witness :
    (destroyRunSched 3 [0, 1, 0, 2, 0, 1, 0, 2]).closingLogs = 1 ∧
    (destroyRunSched 3 [0, 1, 0, 2, 0, 1, 0, 2]).closed = true ∧
    (destroyRunSched 3 [0, 1, 0, 2, 0, 1, 0, 2]).transportClosed = true ∧
    (destroyRunSched 3 [0, 1, 0, 2, 0, 1, 0, 2]).serverClosing = true :=
  destroy_concurrent_exactly_once 3 [0, 1, 0, 2, 0, 1, 0, 2]
    (by decide) (by decide)

end Gokeyless
